import Mathlib

/-!
Verification of `financial_summary.py` (juyoungwang/sharing).

The file shallowly embeds the program: the two regular expressions of
`GetNvrEncparam`, the fetch-and-normalize pipeline of `GetNvrFin`, and the
select / prefix / merge steps of `main`.  Network I/O and the external HTML
parser (`requests`, `pd.read_html`) are modelled as an explicit environment
`Env`; the observable calls of one run are recorded as a list of `Event`s.
All machine-level pandas behaviour that the program touches (MultiIndex
`droplevel`, scalar membership in a `MultiIndex`, `set_index`, `intersection`,
`loc`, `reindex`, `concat(axis=1)`, `to_csv` with `utf-8-sig`) is translated
into explicit list functions, with a comment at each definition naming the
pandas behaviour it models.
-/

set_option maxRecDepth 4000

/-- Character with code 39, the single-quote delimiter used by both regexes. -/
def quoteChar : Char := Char.ofNat 39

/-- Character with code 10; `.` in a Python regex does not match a newline. -/
def nlChar : Char := Char.ofNat 10

/-- Case-insensitive match of the pattern `p` against a prefix of the text,
modelling `re.IGNORECASE` on the literal part of the patterns. -/
def ciMatch : List Char → List Char → Bool
  | [], _ => true
  | _ :: _, [] => false
  | p :: ps, c :: cs => (p.toLower == c.toLower) && ciMatch ps cs

/-- The literal marker of `re.compile(r"encparam: '(.+?)'", re.IGNORECASE)`. -/
def encMarker : List Char := "encparam: '".data

/-- The literal marker of `re.compile(r"id: '([A-Za-z0-9]+)' ?", re.IGNORECASE)`. -/
def idMarker : List Char := "id: '".data

/-- Capture of `(.+?)'` immediately after the marker: the shortest nonempty,
newline-free run of characters followed by a closing quote.  The first
captured character may itself be a quote (it is consumed by `.+?`, which must
match at least one character); after that the capture stops at the first
quote. -/
def capQuote : List Char → Option (List Char)
  | [] => none
  | c :: rest =>
    if c == nlChar then none
    else
      let run := rest.takeWhile (fun d => !(d == quoteChar) && !(d == nlChar))
      if (rest.drop run.length).head? == some quoteChar then some (c :: run)
      else none

/-- ASCII alphanumeric test, the character class `[A-Za-z0-9]`. -/
def isAlnumAscii (c : Char) : Bool :=
  (decide ('A' ≤ c) && decide (c ≤ 'Z')) ||
  (decide ('a' ≤ c) && decide (c ≤ 'z')) ||
  (decide ('0' ≤ c) && decide (c ≤ '9'))

/-- Capture of `([A-Za-z0-9]+)'` after the marker: the greedy alphanumeric run
matches iff it is nonempty and immediately followed by a quote (backtracking
inside the run cannot expose a quote because the class excludes it); the
trailing `" ?"` of the pattern is always satisfiable and captures nothing. -/
def capAlnum (l : List Char) : Option (List Char) :=
  let run := l.takeWhile isAlnumAscii
  if run.isEmpty then none
  else if (l.drop run.length).head? == some quoteChar then some run
  else none

/-- `re_enc.search(html)`: try the pattern at each position left to right and
return the first successful capture. -/
def scanEnc : List Char → Option (List Char)
  | [] => none
  | c :: rest =>
    if ciMatch encMarker (c :: rest) then
      match capQuote ((c :: rest).drop encMarker.length) with
      | some cap => some cap
      | none => scanEnc rest
    else scanEnc rest

/-- `re_id.search(html)`: first successful capture in document order. -/
def scanId : List Char → Option (List Char)
  | [] => none
  | c :: rest =>
    if ciMatch idMarker (c :: rest) then
      match capAlnum ((c :: rest).drop idMarker.length) with
      | some cap => some cap
      | none => scanId rest
    else scanId rest

/-- The pure part of `GetNvrEncparam` (lines 26-35): search both patterns
independently over the page body and return both captures, or nothing when
either pattern is absent. -/
def extractTokens (html : String) : Option (String × String) :=
  match scanEnc html.data, scanId html.data with
  | some e, some i => some (String.mk e, String.mk i)
  | _, _ => none

/-- One untyped tabular block of the `pd.read_html` output.  Each column
carries its full header path (length 1 for a flat `Index`, length `n ≥ 2` for
an `n`-level `MultiIndex`); each row has one cell per column, `none` being a
missing value (`NaN`). -/
structure RawTable where
  header : List (List String)
  rows : List (List (Option String))
deriving DecidableEq

/-- A DataFrame keyed by metric name, as produced by
`fs.set_index("주요재무정보")`: remaining column labels plus rows of
(index label, cells). -/
structure NTable where
  cols : List String
  rows : List (String × List (Option String))
deriving DecidableEq

/-- The error kinds of the program (spec section 7).  The source raises all of
them as `ValueError` with the quoted messages; `transportError` is an error of
the HTTP library (`requests`) propagating through, and `pandasError` an error
raised inside pandas itself (not named by the spec). -/
inductive FinError where
  | transportError (msg : String)
  | extractionError (msg : String)
  | emptyResponseError (msg : String)
  | tableCountError (msg : String)
  | missingKeyColumnError (msg : String)
  | pandasError (msg : String)
deriving DecidableEq

/-- Message of `raise ValueError(f"[GetNvrEncparam] ... code={code}")`
(line 33). -/
def extractionMsg (code : String) : String :=
  "[GetNvrEncparam] encparam 또는 id를 찾을 수 없습니다. code=" ++ code

/-- Message of line 74, carrying the code and the frequency selector. -/
def emptyMsg (code freq : String) : String :=
  "[GetNvrFin] AJAX 응답이 비어 있습니다. code=" ++ code ++ ", freq_typ=" ++ freq

/-- Message of line 78, carrying the parsed-table count but not the code. -/
def countMsg (n : Nat) : String :=
  "[GetNvrFin] 테이블을 파싱할 수 없습니다. (tables count=" ++ toString n ++ ")"

/-- Message of line 85; it carries neither the code nor the frequency. -/
def keyMsg : String := "[GetNvrFin] '주요재무정보' 컬럼을 찾을 수 없습니다."

/-- The metric-name key column, `"주요재무정보"`. -/
def keyName : String := "주요재무정보"

/-- Observable calls of one run: a portal GET plus token extraction
(`GetNvrEncparam`), a data-endpoint GET (`requests.get(ajax_url, ...)`), and a
call of the HTML table parser (`pd.read_html`). -/
inductive Event where
  | extractCall (code : String)
  | fetchCall (code : String) (freq : String) (tokens : String × String)
  | parse (raw : String)
deriving DecidableEq

/-- True on the token-extraction event. -/
def Event.isExtract : Event → Bool
  | .extractCall _ => true
  | _ => false

/-- The external world: the portal page body per entity code, the data
endpoint body per (code, frequency, tokens), and the HTML table parser.  An
`Except.error` from the two HTTP functions is a transport failure carrying the
library's message. -/
structure Env where
  portalPage : String → Except String String
  ajaxPage : String → String → String × String → Except String String
  parseTables : String → List RawTable

/-- `GetNvrEncparam` (lines 11-35): one portal GET, then both regex searches;
`ValueError` when either is missing.  The second component is the event
trace, always the single extraction call. -/
def GetNvrEncparamRun (env : Env) (code : String) :
    Except FinError (String × String) × List Event :=
  (match env.portalPage code with
   | .error m => .error (.transportError m)
   | .ok html =>
     match extractTokens html with
     | some toks => .ok toks
     | none => .error (.extractionError (extractionMsg code)),
   [Event.extractCall code])

/-- `raw_html.strip() == ""` (with `not raw_html` subsumed): the body consists
of whitespace only. -/
def isBlank (s : String) : Bool := s.data.all Char.isWhitespace

/-- `isinstance(fs.columns, pd.MultiIndex)`: the header has at least two
levels. -/
def isMultiHdr (hdr : List (List String)) : Bool :=
  hdr.any (fun p => decide (2 ≤ p.length))

/-- `fs.columns = fs.columns.droplevel(0)` guarded by the `MultiIndex` test
(lines 81-82): drop exactly the outermost level of every column, and only
when the header is multi-level. -/
def collapse (hdr : List (List String)) : List (List String) :=
  if isMultiHdr hdr then hdr.map (fun p => p.drop 1) else hdr

/-- `"주요재무정보" in fs.columns`, as the index of the first matching column.
On a flat Index this is label equality; on a MultiIndex, scalar membership is
membership in level 0 (pandas `MultiIndex.get_loc` with a non-tuple key
resolves against level 0 only), so both cases test the head of the label
path. -/
def findColIdx (hdr : List (List String)) (key : String) : Option Nat :=
  hdr.findIdx? (fun p => p.head? == some key)

/-- Flat label of a column (head of its path). -/
def headLabel (p : List String) : String := p.head?.getD ""

/-- Rendering of an index cell: a present value is the label itself, a missing
(`NaN`) or absent cell is rendered as the empty label.  (pandas would keep
`NaN` in the index; such a label never equals any requested metric name, and
the empty label plays the same role here.) -/
def cellStr (c : Option (Option String)) : String := (c.getD none).getD ""

/-- Lines 80-86 applied to the selected block: collapse the header, require
the key column (line 84), and `set_index` on it (line 86).  `set_index` with
a scalar key selects the block of columns labelled by the key: when the
collapsed header is still multi-level, or when the flat key label occurs in
more than one column, that block is two-dimensional and pandas itself raises
(never silently resolving a duplicate label to one column), modelled by
`pandasError`; only a unique flat match becomes the row index. -/
def normalizeTable (fs : RawTable) : Except FinError NTable :=
  let hdr := collapse fs.header
  match findColIdx hdr keyName with
  | none => .error (.missingKeyColumnError keyMsg)
  | some j =>
    if isMultiHdr hdr then
      .error (.pandasError "set_index on MultiIndex columns")
    else if 2 ≤ hdr.countP (fun p => p.head? == some keyName) then
      .error (.pandasError "Index data must be 1-dimensional")
    else
      .ok { cols := (hdr.eraseIdx j).map headLabel,
            rows := fs.rows.map (fun row => (cellStr (row.get? j), row.eraseIdx j)) }

/-- `GetNvrFin` (lines 38-88): extract tokens (nested `GetNvrEncparam` call),
one data-endpoint GET, the blank-body check, `pd.read_html`, the table-count
check, then normalization of block index 1.  The trace records the calls in
program order; `pd.read_html` runs before the count check, so its event is in
the trace of a `tableCountError` as well. -/
def GetNvrFinRun (env : Env) (code freq : String) :
    Except FinError NTable × List Event :=
  let ext := GetNvrEncparamRun env code
  match ext.1 with
  | .error e => (.error e, ext.2)
  | .ok toks =>
    let tr := ext.2 ++ [Event.fetchCall code freq toks]
    match env.ajaxPage code freq toks with
    | .error m => (.error (.transportError m), tr)
    | .ok raw =>
      if isBlank raw then
        (.error (.emptyResponseError (emptyMsg code freq)), tr)
      else
        let tr := tr ++ [Event.parse raw]
        let tables := env.parseTables raw
        if h : tables.length < 2 then
          (.error (.tableCountError (countMsg tables.length)), tr)
        else
          (normalizeTable (tables.get ⟨1, by omega⟩), tr)

/-- Keep the first occurrence of every label, in order (the uniqueness of a
pandas `Index.intersection` result). -/
def dedupFirstAux (seen : List String) : List String → List String
  | [] => []
  | x :: xs =>
    if seen.contains x then dedupFirstAux seen xs
    else x :: dedupFirstAux (x :: seen) xs

/-- `df.index.intersection(metrics)`: the unique index labels that also occur
in `metrics`, in index order (pandas `Index.intersection` with the default
`sort=False` keeps the calling index's order and returns unique values). -/
def intersectKeys (keys metricNames : List String) : List String :=
  dedupFirstAux [] (keys.filter (fun k => metricNames.contains k))

/-- `df.loc[available]`: for each requested label in order, every row carrying
that label, in row order. -/
def locRows (rows : List (String × List (Option String))) (ks : List String) :
    List (String × List (Option String)) :=
  ks.flatMap (fun k => rows.filter (fun r => r.1 == k))

/-- Lines 107-108 / 110-111, the MetricSelector:
`df.loc[df.index.intersection(metrics)].reindex(metrics)`.  `reindex` on a
duplicated index raises (pandas `ValueError`); on a unique index it emits one
row per requested metric in request order, a row of `NaN` cells when the
metric is absent. -/
def selectMetrics (t : NTable) (metricNames : List String) :
    Except String NTable :=
  let available := intersectKeys (t.rows.map Prod.fst) metricNames
  let sel := locRows t.rows available
  if (sel.map Prod.fst).Nodup then
    .ok { cols := t.cols,
          rows := metricNames.map (fun m =>
            (m, (sel.lookup m).getD (List.replicate t.cols.length none))) }
  else .error "cannot reindex on an axis with duplicate labels"

/-- Lines 114-115: `df.columns = [f"Y_{col}" for col in df.columns]` (and the
`Q_` twin). -/
def prefixCols (p : String) (t : NTable) : NTable :=
  { t with cols := t.cols.map (fun c => p ++ c) }

/-- Insertion of a string into a sorted list, for the outer-join index order
of `pd.concat`. -/
def insertSorted (s : String) : List String → List String
  | [] => [s]
  | x :: xs => if s ≤ x then s :: x :: xs else x :: insertSorted s xs

/-- Lexicographic sort, the order pandas gives a non-identical outer-join
index. -/
def sortStrings (l : List String) : List String := l.foldr insertSorted []

/-- `pd.concat([a, b], axis=1)` (line 118): columns are concatenated in
argument order; identical indexes align positionally, otherwise the rows are
outer-joined on the sorted union of the labels with `NaN` cells on the side
missing a label. -/
def concatCols (a b : NTable) : NTable :=
  if a.rows.map Prod.fst = b.rows.map Prod.fst then
    { cols := a.cols ++ b.cols,
      rows := a.rows.zipWith (fun ra rb => (ra.1, ra.2 ++ rb.2)) b.rows }
  else
    { cols := a.cols ++ b.cols,
      rows := (sortStrings (dedupFirstAux []
                 (a.rows.map Prod.fst ++ b.rows.map Prod.fst))).map (fun k =>
        (k, ((a.rows.lookup k).getD (List.replicate a.cols.length none)) ++
            ((b.rows.lookup k).getD (List.replicate b.cols.length none)))) }

/-- Lines 114-118 as one step: prefix the annual columns with `Y_`, the
quarterly columns with `Q_`, and concatenate horizontally. -/
def mergeStep (dfAllSel dfQtrSel : NTable) : NTable :=
  concatCols (prefixCols "Y_" dfAllSel) (prefixCols "Q_" dfQtrSel)

/-- Lines 105-118: select the fixed metrics from both views, prefix, merge. -/
def selectPrefixMerge (dfAll dfQtr : NTable) (metricNames : List String) :
    Except String NTable :=
  match selectMetrics dfAll metricNames, selectMetrics dfQtr metricNames with
  | .ok a, .ok q => .ok (mergeStep a q)
  | .error m, _ => .error m
  | _, .error m => .error m

/-- The fixed metric list of line 105. -/
def metricsList : List String :=
  ["매출액", "영업이익", "당기순이익", "영업이익률", "PER(배)", "PBR(배)"]

/-- Cell rendering of `to_csv`: missing values write as the empty field. -/
def csvCell : Option String → String
  | none => ""
  | some s => s

/-- `df_merged.to_csv(path, encoding="utf-8-sig")` (line 126): a byte-order
mark, a header line of the index name and the column labels, then one line
per row.  (Field quoting of delimiter-bearing cells is not modelled; no cell
in this pipeline's claims carries a delimiter.) -/
def toCsv (t : NTable) : String :=
  "\uFEFF" ++ keyName ++ "," ++ String.intercalate "," t.cols ++ "\n" ++
  String.join (t.rows.map (fun r =>
    r.1 ++ "," ++ String.intercalate "," (r.2.map csvCell) ++ "\n"))

/-- `main` (lines 91-128) after argument parsing: fetch the annual (`"Y"`)
view, then the quarterly (`"Q"`) view, select / prefix / merge, and render the
CSV that is written to `output/<code>.csv`.  Each `GetNvrFin` call performs
its own token extraction (line 45); the traces of both calls are
concatenated.  Any error aborts the run with that error and nothing is
written. -/
def mainRun (env : Env) (code : String) : Except FinError String × List Event :=
  let finY := GetNvrFinRun env code "Y"
  match finY.1 with
  | .error e => (.error e, finY.2)
  | .ok dfAll =>
    let finQ := GetNvrFinRun env code "Q"
    match finQ.1 with
    | .error e => (.error e, finY.2 ++ finQ.2)
    | .ok dfQtr =>
      match selectPrefixMerge dfAll dfQtr metricsList with
      | .ok merged => (.ok (toCsv merged), finY.2 ++ finQ.2)
      | .error m => (.error (.pandasError m), finY.2 ++ finQ.2)

/-- A portal page carrying both tokens. -/
def pageEx : String := "encparam: 'abc123==' foo id: 'XYZ9'"

/-- A decorative first block, ignored by the program. -/
def tbl0Ex : RawTable := { header := [], rows := [] }

/-- A flat-header financial-summary block with one metric row. -/
def tblEx : RawTable :=
  { header := [["주요재무정보"], ["2023"]],
    rows := [[some "매출액", some "100"]] }

/-- An environment on which a full run succeeds. -/
def envEx : Env :=
  { portalPage := fun _ => .ok pageEx,
    ajaxPage := fun _ _ _ => .ok "<table/>",
    parseTables := fun _ => [tbl0Ex, tblEx] }

/-- The same environment with a data endpoint whose body parses into no
tabular block at all. -/
def envCnt : Env := { envEx with parseTables := fun _ => [] }

/-- The same environment with a whitespace-only data-endpoint body. -/
def envBlank : Env := { envEx with ajaxPage := fun _ _ _ => .ok "   " }

/-- Annual table of the end-to-end merge scenario: only Revenue. -/
def annualC4 : NTable := { cols := ["2023"], rows := [("Revenue", [some "100"])] }

/-- Quarterly table of the end-to-end merge scenario: only OperatingProfit. -/
def qtrC4 : NTable :=
  { cols := ["2023Q4"], rows := [("OperatingProfit", [some "10"])] }

/-- A source table holding only B and A, in that order. -/
def tblC3 : NTable :=
  { cols := ["P1"], rows := [("B", [some "1"]), ("A", [some "2"])] }

/-- A flat-header block without the key column. -/
def tblNoKey : RawTable :=
  { header := [["항목"], ["2023"]], rows := [[some "x", some "1"]] }

/-- A two-level block whose inner level carries the key column. -/
def tblTwoLvl : RawTable :=
  { header := [["연간", "주요재무정보"], ["연간", "2023"]],
    rows := [[some "매출액", some "100"]] }

/-- A three-level block: the key name sits at the innermost level only. -/
def tblThreeLvl : RawTable :=
  { header := [["외부", "내부", "주요재무정보"], ["외부", "내부", "2023"]],
    rows := [[some "매출액", some "100"]] }

/-- A two-level block whose distinct column tuples collapse to a duplicated
flat key label once the outer level is dropped. -/
def tblDupKey : RawTable :=
  { header := [["연간", "주요재무정보"], ["분기", "주요재무정보"], ["연간", "2023"]],
    rows := [[some "매출액", some "매출액", some "100"]] }

/-- Occurrence of `needle` as a contiguous substring, position by position
(used to state what a diagnostic message includes). -/
def listInfix (needle : List Char) : List Char → Bool
  | [] => needle.isEmpty
  | c :: rest => needle.isPrefixOf (c :: rest) || listInfix needle rest

/-- Substring test on strings. -/
def strContains (hay needle : String) : Bool := listInfix needle.data hay.data

/-- Prefix test on strings (used to state which view a merged column belongs
to). -/
def strStartsWith (s p : String) : Bool := p.data.isPrefixOf s.data

/-- A portal page with both patterns far apart and in document order. -/
def pageC7 : String := "var a = 1; encparam: 'abc123=='; var b = 2; id: 'XYZ9';"

/-- The same patterns with upper-case key markers. -/
def pageC7b : String := "ENCPARAM: 'tokenV' ID: 'ID7'"

/-- Both patterns twice, the id pattern first in document order. -/
def pageC7c : String := "id: 'AA1' x id: 'BB2' encparam: 'first' encparam: 'second'"

/-! ## General lemmas about the substring and prefix tests -/

theorem listInfix_nil_needle (l : List Char) : listInfix [] l = true := by
  cases l with
  | nil => rfl
  | cons c rest => simp [listInfix, List.isPrefixOf]

theorem listInfix_of_isPre {n l : List Char} (h : n.isPrefixOf l = true) :
    listInfix n l = true := by
  cases l with
  | nil =>
    cases n with
    | nil => rfl
    | cons a as => simp [List.isPrefixOf] at h
  | cons c rest => simp [listInfix, h]

theorem isPre_append {n l : List Char} (b : List Char)
    (h : n.isPrefixOf l = true) : n.isPrefixOf (l ++ b) = true := by
  rw [List.isPrefixOf_iff_prefix] at h ⊢
  exact h.trans (List.prefix_append l b)

theorem isPre_self (n : List Char) : n.isPrefixOf n = true := by
  rw [List.isPrefixOf_iff_prefix]

theorem listInfix_append_right {n b : List Char} (a : List Char)
    (h : listInfix n b = true) : listInfix n (a ++ b) = true := by
  induction a with
  | nil => simpa using h
  | cons x a' ih =>
    simp only [List.cons_append, listInfix, Bool.or_eq_true]
    exact Or.inr ih

theorem listInfix_append_left {n a : List Char} (b : List Char)
    (h : listInfix n a = true) : listInfix n (a ++ b) = true := by
  induction a with
  | nil =>
    have hn : n = [] := by simpa [listInfix, List.isEmpty_iff] using h
    subst hn
    exact listInfix_nil_needle _
  | cons x a' ih =>
    simp only [listInfix, Bool.or_eq_true] at h
    simp only [List.cons_append, listInfix, Bool.or_eq_true]
    rcases h with h | h
    · exact Or.inl (isPre_append b h)
    · exact Or.inr (ih h)

theorem strContains_self (n : String) : strContains n n = true :=
  listInfix_of_isPre (isPre_self n.data)

theorem strContains_append_left {a n : String} (b : String)
    (h : strContains a n = true) : strContains (a ++ b) n = true := by
  unfold strContains at h ⊢
  rw [String.data_append]
  exact listInfix_append_left _ h

theorem strContains_append_right {b n : String} (a : String)
    (h : strContains b n = true) : strContains (a ++ b) n = true := by
  unfold strContains at h ⊢
  rw [String.data_append]
  exact listInfix_append_right _ h

theorem strStartsWith_append (p x : String) :
    strStartsWith (p ++ x) p = true := by
  unfold strStartsWith
  rw [String.data_append, List.isPrefixOf_iff_prefix]
  exact List.prefix_append _ _

theorem strStartsWith_Y_not_Q (x : String) :
    strStartsWith ("Y_" ++ x) "Q_" = false := by
  rw [Bool.eq_false_iff]
  intro hcon
  unfold strStartsWith at hcon
  rw [String.data_append, List.isPrefixOf_iff_prefix] at hcon
  obtain ⟨t, ht⟩ := hcon
  have hq : "Q_".data = ['Q', '_'] := rfl
  have hy : "Y_".data = ['Y', '_'] := rfl
  rw [hq, hy] at ht
  simp at ht

theorem strStartsWith_Q_not_Y (x : String) :
    strStartsWith ("Q_" ++ x) "Y_" = false := by
  rw [Bool.eq_false_iff]
  intro hcon
  unfold strStartsWith at hcon
  rw [String.data_append, List.isPrefixOf_iff_prefix] at hcon
  obtain ⟨t, ht⟩ := hcon
  have hq : "Q_".data = ['Q', '_'] := rfl
  have hy : "Y_".data = ['Y', '_'] := rfl
  rw [hq, hy] at ht
  simp at ht

/-! ## C4 and C7: closed end-to-end scenarios -/

/-- C4: with metrics [Revenue, OperatingProfit], an annual table holding only
Revenue at 2023 and a quarterly table holding only OperatingProfit at 2023Q4,
the select-prefix-merge pipeline yields Revenue = [Y_2023: 100, Q_2023Q4:
empty] and OperatingProfit = [Y_2023: empty, Q_2023Q4: 10], in that row
order. -/
theorem select_prefix_merge_scenario :
    selectPrefixMerge annualC4 qtrC4 ["Revenue", "OperatingProfit"] =
      .ok { cols := ["Y_2023", "Q_2023Q4"],
            rows := [("Revenue", [some "100", none]),
                     ("OperatingProfit", [none, some "10"])] } := by rfl

/-- C7: a page carrying `encparam: 'abc123=='` and `id: 'XYZ9'` extracts to
the pair (abc123==, XYZ9); marker matching is case-insensitive; each token
comes from the first occurrence of its own pattern in document order, with no
adjacency or ordering assumption between the two patterns. -/
theorem extractor_scenarios :
    extractTokens pageC7 = some ("abc123==", "XYZ9") ∧
    extractTokens pageC7b = some ("tokenV", "ID7") ∧
    extractTokens pageC7c = some ("first", "AA1") :=
  ⟨by rfl, by rfl, by rfl⟩

/-! ## C6: a successful extraction returns two non-empty tokens -/

theorem capQuote_ne_nil {l cap : List Char} (h : capQuote l = some cap) :
    cap ≠ [] := by
  cases l with
  | nil => simp [capQuote] at h
  | cons c rest =>
    simp only [capQuote] at h
    by_cases hc : (c == nlChar) = true
    · simp [hc] at h
    · rw [if_neg hc] at h
      by_cases hq : ((rest.drop (rest.takeWhile
          (fun d => !(d == quoteChar) && !(d == nlChar))).length).head?
            == some quoteChar) = true
      · rw [if_pos hq] at h
        obtain rfl := Option.some.inj h
        simp
      · rw [if_neg hq] at h
        exact absurd h (by simp)

theorem capAlnum_ne_nil {l cap : List Char} (h : capAlnum l = some cap) :
    cap ≠ [] := by
  unfold capAlnum at h
  by_cases he : (l.takeWhile isAlnumAscii).isEmpty = true
  · simp [he] at h
  · rw [if_neg he] at h
    by_cases hq : ((l.drop (l.takeWhile isAlnumAscii).length).head?
        == some quoteChar) = true
    · rw [if_pos hq] at h
      obtain rfl := Option.some.inj h
      intro hcon
      rw [hcon] at he
      exact he rfl
    · rw [if_neg hq] at h
      exact absurd h (by simp)

theorem scanEnc_from_capQuote {l cap : List Char} (h : scanEnc l = some cap) :
    ∃ l', capQuote l' = some cap := by
  induction l with
  | nil => simp [scanEnc] at h
  | cons c rest ih =>
    unfold scanEnc at h
    by_cases hm : ciMatch encMarker (c :: rest) = true
    · rw [if_pos hm] at h
      cases hq : capQuote ((c :: rest).drop encMarker.length) with
      | some cap' =>
        rw [hq] at h
        obtain rfl := Option.some.inj h
        exact ⟨_, hq⟩
      | none =>
        rw [hq] at h
        exact ih h
    · rw [if_neg hm] at h
      exact ih h

theorem scanId_from_capAlnum {l cap : List Char} (h : scanId l = some cap) :
    ∃ l', capAlnum l' = some cap := by
  induction l with
  | nil => simp [scanId] at h
  | cons c rest ih =>
    unfold scanId at h
    by_cases hm : ciMatch idMarker (c :: rest) = true
    · rw [if_pos hm] at h
      cases hq : capAlnum ((c :: rest).drop idMarker.length) with
      | some cap' =>
        rw [hq] at h
        obtain rfl := Option.some.inj h
        exact ⟨_, hq⟩
      | none =>
        rw [hq] at h
        exact ih h
    · rw [if_neg hm] at h
      exact ih h

/-- C6: for every environment and entity code, if token extraction succeeds
then both returned tokens — the encoded parameter and the session id — are
non-empty strings (both regex captures require at least one character). -/
theorem tokens_nonempty (env : Env) (code : String) (e i : String)
    (h : (GetNvrEncparamRun env code).1 = .ok (e, i)) : e ≠ "" ∧ i ≠ "" := by
  unfold GetNvrEncparamRun at h
  cases hp : env.portalPage code with
  | error m => simp [hp] at h
  | ok html =>
    simp only [hp] at h
    cases he : extractTokens html with
    | none => simp [he] at h
    | some toks =>
      simp only [he] at h
      obtain rfl := Except.ok.inj h
      unfold extractTokens at he
      cases hs1 : scanEnc html.data with
      | none => rw [hs1] at he; exact absurd he (by simp)
      | some ce =>
        cases hs2 : scanId html.data with
        | none => rw [hs1, hs2] at he; exact absurd he (by simp)
        | some ci =>
          rw [hs1, hs2] at he
          obtain heq := Option.some.inj he
          have he1 : String.mk ce = e := congrArg Prod.fst heq
          have he2 : String.mk ci = i := congrArg Prod.snd heq
          constructor
          · rw [← he1]
            intro hcon
            have hnil : ce = [] := congrArg String.data hcon
            obtain ⟨l', hq⟩ := scanEnc_from_capQuote hs1
            exact capQuote_ne_nil hq hnil
          · rw [← he2]
            intro hcon
            have hnil : ci = [] := congrArg String.data hcon
            obtain ⟨l', hq⟩ := scanId_from_capAlnum hs2
            exact capAlnum_ne_nil hq hnil

/-- Witness: the concrete environment run extracts ("abc123==", "XYZ9"), to
which the theorem applies. -/
theorem tokens_nonempty_witness :
    (GetNvrEncparamRun envEx "095660").1 = .ok ("abc123==", "XYZ9") ∧
    ("abc123==" ≠ "" ∧ "XYZ9" ≠ "") :=
  ⟨by rfl, tokens_nonempty envEx "095660" "abc123==" "XYZ9" (by rfl)⟩

/-! ## C8: a blank data-endpoint body fails before any parsing -/

/-- C8: whenever the data endpoint returns an empty or whitespace-only body,
the fetch step fails with the empty-response error, and the run's trace holds
no HTML-parsing event at all — the body is rejected before `pd.read_html` is
reached. -/
theorem empty_response_before_parse (env : Env) (code freq : String)
    (toks : String × String) (b : String)
    (h1 : (GetNvrEncparamRun env code).1 = .ok toks)
    (h2 : env.ajaxPage code freq toks = .ok b)
    (h3 : isBlank b = true) :
    (GetNvrFinRun env code freq).1 =
      .error (.emptyResponseError (emptyMsg code freq)) ∧
    ∀ r, Event.parse r ∉ (GetNvrFinRun env code freq).2 := by
  have htr : (GetNvrEncparamRun env code).2 = [Event.extractCall code] := rfl
  unfold GetNvrFinRun
  simp only [h1, h2, h3, htr, if_true]
  constructor
  · trivial
  · intro r
    simp

/-- Witness: a concrete environment whose data endpoint answers with three
spaces; the theorem applies and the run fails with the empty-response
error. -/
theorem empty_response_before_parse_witness :
    (GetNvrFinRun envBlank "095660" "Y").1 =
      .error (.emptyResponseError (emptyMsg "095660" "Y")) :=
  (empty_response_before_parse envBlank "095660" "Y" ("abc123==", "XYZ9") "   "
    (by rfl) (by rfl) (by rfl)).1

/-! ## C2 and C10: header collapse and the key-column check -/

theorem findColIdx_none {hdr : List (List String)}
    (h : ∀ p ∈ hdr, p.head? ≠ some keyName) :
    findColIdx hdr keyName = none := by
  unfold findColIdx
  rw [List.findIdx?_eq_none_iff]
  intro x hx
  exact beq_eq_false_iff_ne.mpr (h x hx)

theorem findColIdx_some {hdr : List (List String)} {p₀ : List String}
    (hp : p₀ ∈ hdr) (hh : p₀.head? = some keyName) :
    ∃ j, findColIdx hdr keyName = some j := by
  cases hf : findColIdx hdr keyName with
  | some j => exact ⟨j, rfl⟩
  | none =>
    unfold findColIdx at hf
    rw [List.findIdx?_eq_none_iff] at hf
    have hx := hf p₀ hp
    rw [hh] at hx
    simp at hx

theorem findColIdx_get {hdr : List (List String)} {j : Nat}
    (h : findColIdx hdr keyName = some j) :
    ∃ x, hdr.get? j = some x ∧ x.head? = some keyName := by
  unfold findColIdx at h
  rw [List.findIdx?_eq_some_iff_findIdx_eq] at h
  obtain ⟨hlt, hidx⟩ := h
  refine ⟨hdr[j], ?_, ?_⟩
  · rw [List.get?_eq_getElem?, List.getElem?_eq_getElem hlt]
  · have hp := @List.findIdx_getElem (List String)
      (fun p => p.head? == some keyName) hdr (by rw [hidx]; exact hlt)
    simp only [hidx] at hp
    exact beq_iff_eq.mp hp

theorem collapse_flat {hdr : List (List String)}
    (h : ∀ p ∈ hdr, p.length ≤ 2) : isMultiHdr (collapse hdr) = false := by
  unfold collapse
  by_cases hm : isMultiHdr hdr = true
  · rw [if_pos hm]
    unfold isMultiHdr
    rw [List.any_eq_false]
    intro x hx
    obtain ⟨p, hp, rfl⟩ := List.mem_map.mp hx
    simp only [decide_eq_true_eq, List.length_drop]
    have := h p hp
    omega
  · rw [if_neg hm]
    exact Bool.eq_false_iff.mpr hm

/-- C2 (amended): normalization of the second parsed block fails with the
missing-key-column error exactly when no (collapsed) column is labelled by
the metric-name key; when exactly one column is — whether the header was
single-level or two-level with the outer level dropped — normalization
succeeds and the resulting table's row keys are the values of that column;
when the key labels more than one collapsed column, `set_index` raises a
pandas error instead of succeeding (see the counterexample). -/
theorem normalizer_key_column (fs : RawTable) :
    ((∀ p ∈ collapse fs.header, p.head? ≠ some keyName) →
      normalizeTable fs = .error (.missingKeyColumnError keyMsg)) ∧
    ((∀ p ∈ fs.header, p.length ≤ 2) →
      (collapse fs.header).countP (fun p => p.head? == some keyName) = 1 →
      ∃ t j, normalizeTable fs = .ok t ∧
        ((collapse fs.header).get? j).bind List.head? = some keyName ∧
        t.rows.map Prod.fst = fs.rows.map (fun row => cellStr (row.get? j))) ∧
    ((∀ p ∈ fs.header, p.length ≤ 2) →
      2 ≤ (collapse fs.header).countP (fun p => p.head? == some keyName) →
      normalizeTable fs =
        .error (.pandasError "Index data must be 1-dimensional")) := by
  refine ⟨?_, ?_, ?_⟩
  · intro h
    simp only [normalizeTable]
    rw [findColIdx_none h]
  · intro hd hcount
    have hpos : 0 < (collapse fs.header).countP
        (fun p => p.head? == some keyName) := by omega
    obtain ⟨p₀, hp₀, hpred⟩ := List.countP_pos_iff.mp hpos
    obtain ⟨j, hj⟩ := findColIdx_some hp₀ (beq_iff_eq.mp hpred)
    obtain ⟨x, hx, hxh⟩ := findColIdx_get hj
    refine ⟨{ cols := ((collapse fs.header).eraseIdx j).map headLabel,
              rows := fs.rows.map (fun row =>
                (cellStr (row.get? j), row.eraseIdx j)) }, j, ?_, ?_, ?_⟩
    · simp only [normalizeTable]
      rw [hj, collapse_flat hd, hcount]
      simp
    · rw [hx]
      simpa using hxh
    · simp [List.map_map, Function.comp]
  · intro hd hcnt
    have hpos : 0 < (collapse fs.header).countP
        (fun p => p.head? == some keyName) := by omega
    obtain ⟨p₀, hp₀, hpred⟩ := List.countP_pos_iff.mp hpos
    obtain ⟨j, hj⟩ := findColIdx_some hp₀ (beq_iff_eq.mp hpred)
    simp only [normalizeTable]
    rw [hj, collapse_flat hd]
    simp only [Bool.false_eq_true, if_false]
    rw [if_pos hcnt]

/-- Witness: a flat table without the key column is rejected with the
missing-key-column error, and the two-level table with a unique key column
normalizes keyed by that column. -/
theorem normalizer_key_column_witness :
    normalizeTable tblNoKey = .error (.missingKeyColumnError keyMsg) ∧
    normalizeTable tblTwoLvl =
      .ok { cols := ["2023"], rows := [("매출액", [some "100"])] } :=
  ⟨(normalizer_key_column tblNoKey).1 (by decide), by rfl⟩

/-- Counterexample to C2 as stated: after dropping the outer level of a
two-level header the key column is present (it labels two collapsed
columns), yet normalization raises a pandas error rather than succeeding
keyed by that column. -/
theorem normalizer_dup_key_cex :
    findColIdx (collapse tblDupKey.header) keyName = some 0 ∧
    (collapse tblDupKey.header).countP (fun p => p.head? == some keyName) = 2 ∧
    normalizeTable tblDupKey =
      .error (.pandasError "Index data must be 1-dimensional") :=
  ⟨by rfl, by rfl, by rfl⟩

/-- C10: on a header of more than two levels, the collapse step still drops
exactly the outermost level, the result is still multi-level, and
normalization then fails with the missing-key-column error even though the
key name is present at an inner level (scalar membership only consults the
outermost remaining level). -/
theorem collapse_outer_level_only (fs : RawTable)
    (hne : fs.header ≠ [])
    (hdeep : ∀ p ∈ fs.header, 3 ≤ p.length)
    (hno1 : ∀ p ∈ fs.header, (p.drop 1).head? ≠ some keyName)
    (_hinner : ∃ p ∈ fs.header, keyName ∈ p.drop 2) :
    collapse fs.header = fs.header.map (fun p => p.drop 1) ∧
    (∃ p ∈ collapse fs.header, 2 ≤ p.length) ∧
    normalizeTable fs = .error (.missingKeyColumnError keyMsg) := by
  obtain ⟨q, hq⟩ := List.exists_mem_of_ne_nil fs.header hne
  have hmulti : isMultiHdr fs.header = true := by
    unfold isMultiHdr
    rw [List.any_eq_true]
    refine ⟨q, hq, ?_⟩
    have := hdeep q hq
    simp only [decide_eq_true_eq]
    omega
  have hcol : collapse fs.header = fs.header.map (fun p => p.drop 1) := by
    unfold collapse
    rw [if_pos hmulti]
  refine ⟨hcol, ⟨q.drop 1, ?_, ?_⟩, ?_⟩
  · rw [hcol]
    exact List.mem_map.mpr ⟨q, hq, rfl⟩
  · have := hdeep q hq
    rw [List.length_drop]
    omega
  · simp only [normalizeTable]
    rw [findColIdx_none ?_]
    intro x hx
    rw [hcol] at hx
    obtain ⟨p, hp, rfl⟩ := List.mem_map.mp hx
    exact hno1 p hp

/-- Witness: the three-level block keeps a two-level header after the
collapse and is rejected although the key name sits at its innermost
level. -/
theorem collapse_outer_level_only_witness :
    collapse tblThreeLvl.header = tblThreeLvl.header.map (fun p => p.drop 1) ∧
    normalizeTable tblThreeLvl = .error (.missingKeyColumnError keyMsg) := by
  have h := collapse_outer_level_only tblThreeLvl (by decide) (by decide)
    (by decide) ⟨["외부", "내부", "주요재무정보"], by decide, by decide⟩
  exact ⟨h.1, h.2.2⟩

/-! ## C9: the merge step -/

/-- C9: for any fixed pair of (already selected) normalized tables the merge
step is deterministic and idempotent — re-running it, and re-serializing its
output, yields identical results — and its column list is exactly the
annual columns under the `Y_` prefix followed by the quarterly columns under
the `Q_` prefix, so the two views are distinguished by prefix and not only by
position. -/
theorem merger_prefixes_deterministic (a b : NTable) :
    mergeStep a b = mergeStep a b ∧
    toCsv (mergeStep a b) = toCsv (mergeStep a b) ∧
    (mergeStep a b).cols =
      a.cols.map (fun c => "Y_" ++ c) ++ b.cols.map (fun c => "Q_" ++ c) ∧
    (∀ c ∈ a.cols.map (fun c => "Y_" ++ c),
      strStartsWith c "Y_" = true ∧ strStartsWith c "Q_" = false) ∧
    (∀ c ∈ b.cols.map (fun c => "Q_" ++ c),
      strStartsWith c "Q_" = true ∧ strStartsWith c "Y_" = false) := by
  refine ⟨rfl, rfl, ?_, ?_, ?_⟩
  · unfold mergeStep concatCols prefixCols
    split <;> rfl
  · intro c hc
    obtain ⟨x, _, rfl⟩ := List.mem_map.mp hc
    exact ⟨strStartsWith_append "Y_" x, strStartsWith_Y_not_Q x⟩
  · intro c hc
    obtain ⟨x, _, rfl⟩ := List.mem_map.mp hc
    exact ⟨strStartsWith_append "Q_" x, strStartsWith_Q_not_Y x⟩

/-- Witness: the scenario tables merge into the column list
[Y_2023, Q_2023Q4], and the first column is a `Y_` column and not a `Q_`
column. -/
theorem merger_prefixes_deterministic_witness :
    (mergeStep annualC4 qtrC4).cols = ["Y_2023", "Q_2023Q4"] ∧
    strStartsWith "Y_2023" "Y_" = true ∧
    strStartsWith "Y_2023" "Q_" = false := by
  have h := merger_prefixes_deterministic annualC4 qtrC4
  have hm : "Y_2023" ∈ annualC4.cols.map (fun c => "Y_" ++ c) := by
    simp [annualC4]
  exact ⟨h.2.2.1.trans (by rfl), (h.2.2.2.1 "Y_2023" hm).1,
    (h.2.2.2.1 "Y_2023" hm).2⟩

/-! ## C3: the metric selector -/

theorem contains_false_of_not_mem {l : List String} {a : String}
    (h : a ∉ l) : l.contains a = false := by
  rw [Bool.eq_false_iff]
  intro hc
  exact h (List.elem_iff.mp hc)

theorem dedupFirstAux_of_nodup (l : List String) :
    ∀ seen, l.Nodup → (∀ x ∈ l, x ∉ seen) → dedupFirstAux seen l = l := by
  induction l with
  | nil => intro seen _ _; rfl
  | cons x xs ih =>
    intro seen hnd hs
    obtain ⟨hx, hxs⟩ := List.nodup_cons.mp hnd
    simp only [dedupFirstAux]
    rw [contains_false_of_not_mem (hs x (by simp))]
    simp only [Bool.false_eq_true, if_false]
    congr 1
    refine ih (x :: seen) hxs (fun y hy hmem => ?_)
    rcases List.mem_cons.mp hmem with h1 | h1
    · exact hx (h1 ▸ hy)
    · exact hs y (List.mem_cons_of_mem x hy) h1

theorem filter_key_nil (rs : List (String × List (Option String))) (a : String)
    (ha : a ∉ rs.map Prod.fst) :
    rs.filter (fun r => r.1 == a) = [] := by
  rw [List.filter_eq_nil_iff]
  intro r hr hc
  exact ha (List.mem_map.mpr ⟨r, hr, beq_iff_eq.mp hc⟩)

theorem flatMap_congr_mem {α β : Type _} {l : List α} {f g : α → List β}
    (h : ∀ x ∈ l, f x = g x) : l.flatMap f = l.flatMap g := by
  induction l with
  | nil => rfl
  | cons x xs ih =>
    rw [List.flatMap_cons, List.flatMap_cons, h x (by simp),
      ih (fun y hy => h y (by simp [hy]))]

theorem locRows_filter (rows : List (String × List (Option String)))
    (p : String → Bool) (h : (rows.map Prod.fst).Nodup) :
    locRows rows ((rows.map Prod.fst).filter p) =
      rows.filter (fun r => p r.1) := by
  induction rows with
  | nil => rfl
  | cons r rs ih =>
    have h' := h
    rw [List.map_cons, List.nodup_cons] at h'
    obtain ⟨h1, h2⟩ := h'
    unfold locRows
    rw [List.map_cons, List.filter_cons]
    have e2 : ((rs.map Prod.fst).filter p).flatMap
          (fun k => List.filter (fun x => x.1 == k) (r :: rs)) =
        ((rs.map Prod.fst).filter p).flatMap
          (fun k => List.filter (fun x => x.1 == k) rs) := by
      apply flatMap_congr_mem
      intro k hk
      have hkm : k ∈ rs.map Prod.fst := List.mem_of_mem_filter hk
      have hne : ¬(r.1 == k) = true := by
        rw [beq_iff_eq]
        intro he
        exact h1 (he ▸ hkm)
      rw [List.filter_cons, if_neg hne]
    have hin := ih h2
    unfold locRows at hin
    by_cases hp : p r.1 = true
    · rw [if_pos hp, List.flatMap_cons]
      have e1 : List.filter (fun x => x.1 == r.1) (r :: rs) = [r] := by
        rw [List.filter_cons, if_pos (by simp), filter_key_nil rs r.1 h1]
      rw [e1, e2, hin, List.filter_cons, if_pos hp]
      rfl
    · rw [if_neg hp, e2, hin, List.filter_cons, if_neg hp]

theorem lookup_filter_of_true (rows : List (String × List (Option String)))
    (q : String → Bool) (m : String) (hq : q m = true) :
    (rows.filter (fun r => q r.1)).lookup m = rows.lookup m := by
  induction rows with
  | nil => rfl
  | cons r rs ih =>
    obtain ⟨a, v⟩ := r
    rw [List.filter_cons]
    by_cases hqa : q (a, v).1 = true
    · rw [if_pos hqa]
      simp only [List.lookup_cons]
      cases hma : m == a with
      | false => exact ih
      | true => rfl
    · rw [if_neg hqa]
      have hma : (m == a) = false := by
        rw [beq_eq_false_iff_ne]
        intro he
        apply hqa
        rw [← he]
        exact hq
      simp only [List.lookup_cons, hma]
      exact ih

/-- C3: for every normalized table with unique metric names (the data-model
invariant) and every requested metrics list, selection succeeds, its rows are
exactly in the order of the requested list — independent of the table's own
row order — and each requested metric maps to its stored cells when present
and to a row of missing cells when absent. -/
theorem selector_order_and_missing (t : NTable) (metricNames : List String)
    (h : (t.rows.map Prod.fst).Nodup) :
    selectMetrics t metricNames =
      .ok { cols := t.cols,
            rows := metricNames.map (fun m =>
              (m, (t.rows.lookup m).getD
                (List.replicate t.cols.length none))) } := by
  have hkf : ((t.rows.map Prod.fst).filter
      (fun k => metricNames.contains k)).Nodup := h.filter _
  have havail : intersectKeys (t.rows.map Prod.fst) metricNames =
      (t.rows.map Prod.fst).filter (fun k => metricNames.contains k) := by
    unfold intersectKeys
    exact dedupFirstAux_of_nodup _ [] hkf (fun x _ => List.not_mem_nil x)
  have hsel : locRows t.rows
        (intersectKeys (t.rows.map Prod.fst) metricNames) =
      t.rows.filter (fun r => metricNames.contains r.1) := by
    rw [havail]
    exact locRows_filter t.rows _ h
  have hnod : ((t.rows.filter
      (fun r => metricNames.contains r.1)).map Prod.fst).Nodup :=
    List.Nodup.sublist ((List.filter_sublist t.rows).map Prod.fst) h
  simp only [selectMetrics]
  rw [hsel, if_pos hnod]
  congr 1
  congr 1
  apply List.map_congr_left
  intro m hm
  have hc : metricNames.contains m = true := List.elem_iff.mpr hm
  rw [lookup_filter_of_true t.rows _ m hc]

/-- Witness: metrics [A, B, C] against the table holding only B then A yield
rows A, B, C in exactly that order, with C an empty row. -/
theorem selector_order_and_missing_witness :
    selectMetrics tblC3 ["A", "B", "C"] =
      .ok { cols := ["P1"],
            rows := [("A", [some "2"]), ("B", [some "1"]), ("C", [none])] } :=
  (selector_order_and_missing tblC3 ["A", "B", "C"] (by decide)).trans (by rfl)

/-! ## C1: token extraction happens once per fetch call, twice per run -/

theorem finRunOkTrace (env : Env) (code freq : String) (t : NTable)
    (h : (GetNvrFinRun env code freq).1 = .ok t) :
    ∃ toks raw, (GetNvrEncparamRun env code).1 = .ok toks ∧
      (GetNvrFinRun env code freq).2 =
        [Event.extractCall code, Event.fetchCall code freq toks,
         Event.parse raw] := by
  have htr : (GetNvrEncparamRun env code).2 = [Event.extractCall code] := rfl
  unfold GetNvrFinRun at h ⊢
  cases he : (GetNvrEncparamRun env code).1 with
  | error e => simp [he] at h
  | ok toks =>
    simp only [he, htr] at h ⊢
    cases ha : env.ajaxPage code freq toks with
    | error m => simp [ha] at h
    | ok raw =>
      simp only [ha] at h ⊢
      have hb : isBlank raw = false := by
        cases hb' : isBlank raw with
        | true => simp [hb'] at h
        | false => rfl
      simp only [hb, Bool.false_eq_true, if_false] at h ⊢
      by_cases hlen : (env.parseTables raw).length < 2
      · rw [dif_pos hlen] at h
        simp at h
      · rw [dif_neg hlen] at h ⊢
        exact ⟨toks, raw, rfl, by simp⟩

/-- C1 (amended): on every successful run the orchestrator performs token
extraction once per table-fetch call — twice in total — and, the portal
response being fixed for the run's entity code, both fetch calls receive the
same token pair. -/
theorem orchestrator_token_reuse (env : Env) (code : String)
    (h : (mainRun env code).1.isOk = true) :
    (∃ toks rawY rawQ,
      (mainRun env code).2 =
        [Event.extractCall code, Event.fetchCall code "Y" toks,
         Event.parse rawY, Event.extractCall code,
         Event.fetchCall code "Q" toks, Event.parse rawQ]) ∧
    (mainRun env code).2.countP Event.isExtract = 2 := by
  unfold mainRun at h ⊢
  cases hY : (GetNvrFinRun env code "Y").1 with
  | error e => simp [hY, Except.isOk, Except.toBool] at h
  | ok dfAll =>
    simp only [hY] at h ⊢
    cases hQ : (GetNvrFinRun env code "Q").1 with
    | error e => simp [hQ, Except.isOk, Except.toBool] at h
    | ok dfQtr =>
      simp only [hQ] at h ⊢
      obtain ⟨toksY, rawY, heY, htY⟩ := finRunOkTrace env code "Y" dfAll hY
      obtain ⟨toksQ, rawQ, heQ, htQ⟩ := finRunOkTrace env code "Q" dfQtr hQ
      have hts : toksY = toksQ := by
        rw [heY] at heQ
        exact Except.ok.inj heQ
      cases hs : selectPrefixMerge dfAll dfQtr metricsList with
      | ok merged =>
        simp only [hs]
        rw [htY, htQ, ← hts]
        exact ⟨⟨toksY, rawY, rawQ, by simp⟩,
          by simp [List.countP_append, List.countP_cons, Event.isExtract]⟩
      | error m =>
        simp only [hs]
        rw [htY, htQ, ← hts]
        exact ⟨⟨toksY, rawY, rawQ, by simp⟩,
          by simp [List.countP_append, List.countP_cons, Event.isExtract]⟩

/-- Witness: the theorem applies to the concrete successful run, whose trace
carries two extraction events. -/
theorem orchestrator_token_reuse_witness :
    (mainRun envEx "095660").2.countP Event.isExtract = 2 :=
  (orchestrator_token_reuse envEx "095660" (by rfl)).2

/-- Counterexample to C1 as stated: a successful run on the concrete
environment performs token extraction twice, not exactly once. -/
theorem orchestrator_single_extraction_cex :
    (mainRun envEx "095660").1.isOk = true ∧
    ¬((mainRun envEx "095660").2.countP Event.isExtract = 1) := by
  constructor
  · rfl
  · intro hc
    have h2 : (mainRun envEx "095660").2.countP Event.isExtract = 2 := rfl
    rw [h2] at hc
    exact absurd hc (by decide)

/-! ## C5: error propagation and diagnostics -/

theorem extractionMsg_tag (code : String) :
    strContains (extractionMsg code) "[GetNvrEncparam]" = true :=
  strContains_append_left code (by rfl)

theorem extractionMsg_code (code : String) :
    strContains (extractionMsg code) code = true :=
  strContains_append_right _ (strContains_self code)

theorem emptyMsg_tag (code freq : String) :
    strContains (emptyMsg code freq) "[GetNvrFin]" = true := by
  unfold emptyMsg
  apply strContains_append_left
  apply strContains_append_left
  apply strContains_append_left
  rfl

theorem emptyMsg_code (code freq : String) :
    strContains (emptyMsg code freq) code = true := by
  unfold emptyMsg
  apply strContains_append_left
  apply strContains_append_left
  exact strContains_append_right _ (strContains_self code)

theorem countMsg_tag (n : Nat) :
    strContains (countMsg n) "[GetNvrFin]" = true := by
  unfold countMsg
  apply strContains_append_left
  apply strContains_append_left
  rfl

theorem keyMsg_tag : strContains keyMsg "[GetNvrFin]" = true := by rfl

theorem normalizeTable_error (fs : RawTable) (e : FinError)
    (h : normalizeTable fs = .error e) :
    e = .missingKeyColumnError keyMsg ∨ ∃ s, e = .pandasError s := by
  simp only [normalizeTable] at h
  cases hf : findColIdx (collapse fs.header) keyName with
  | none =>
    simp only [hf] at h
    exact Or.inl (Except.error.inj h).symm
  | some j =>
    simp only [hf] at h
    by_cases hm : isMultiHdr (collapse fs.header) = true
    · rw [if_pos hm] at h
      exact Or.inr ⟨_, (Except.error.inj h).symm⟩
    · rw [if_neg hm] at h
      by_cases hc : 2 ≤ (collapse fs.header).countP
          (fun p => p.head? == some keyName)
      · rw [if_pos hc] at h
        exact Or.inr ⟨_, (Except.error.inj h).symm⟩
      · rw [if_neg hc] at h
        exact absurd h (by simp)

theorem finRunError (env : Env) (code freq : String) (e : FinError)
    (h : (GetNvrFinRun env code freq).1 = .error e) :
    (∃ s, e = .transportError s) ∨
    e = .extractionError (extractionMsg code) ∨
    e = .emptyResponseError (emptyMsg code freq) ∨
    (∃ n, e = .tableCountError (countMsg n)) ∨
    e = .missingKeyColumnError keyMsg ∨
    (∃ s, e = .pandasError s) := by
  unfold GetNvrFinRun at h
  cases hext : (GetNvrEncparamRun env code).1 with
  | error e' =>
    simp only [hext] at h
    obtain rfl := Except.error.inj h
    unfold GetNvrEncparamRun at hext
    cases hp : env.portalPage code with
    | error m =>
      simp only [hp] at hext
      obtain rfl := Except.error.inj hext
      exact Or.inl ⟨m, rfl⟩
    | ok html =>
      simp only [hp] at hext
      cases het : extractTokens html with
      | some toks =>
        rw [het] at hext
        exact absurd hext (by simp)
      | none =>
        rw [het] at hext
        obtain rfl := Except.error.inj hext
        exact Or.inr (Or.inl rfl)
  | ok toks =>
    simp only [hext] at h
    cases ha : env.ajaxPage code freq toks with
    | error m =>
      simp only [ha] at h
      obtain rfl := Except.error.inj h
      exact Or.inl ⟨m, rfl⟩
    | ok raw =>
      simp only [ha] at h
      by_cases hb : isBlank raw = true
      · simp only [hb, if_true] at h
        obtain rfl := Except.error.inj h
        exact Or.inr (Or.inr (Or.inl rfl))
      · have hb' : isBlank raw = false := Bool.eq_false_iff.mpr hb
        simp only [hb', Bool.false_eq_true, if_false] at h
        by_cases hlen : (env.parseTables raw).length < 2
        · rw [dif_pos hlen] at h
          obtain rfl := Except.error.inj h
          exact Or.inr (Or.inr (Or.inr (Or.inl ⟨_, rfl⟩)))
        · rw [dif_neg hlen] at h
          rcases normalizeTable_error _ _ h with h1 | h1
          · exact Or.inr (Or.inr (Or.inr (Or.inr (Or.inl h1))))
          · exact Or.inr (Or.inr (Or.inr (Or.inr (Or.inr h1))))

/-- C5 (amended): every stage failure aborts the run and propagates unchanged
to the top level; every diagnostic the program builds names its failing
stage, and the extraction and empty-response diagnostics also embed the
entity code — but the table-count and missing-key-column diagnostics do not
embed the code (see the counterexample). -/
theorem error_propagation_diagnostics :
    (∀ env code e, (GetNvrFinRun env code "Y").1 = .error e →
      (mainRun env code).1 = .error e) ∧
    (∀ env code t e, (GetNvrFinRun env code "Y").1 = .ok t →
      (GetNvrFinRun env code "Q").1 = .error e →
      (mainRun env code).1 = .error e) ∧
    (∀ env code freq m,
      (GetNvrFinRun env code freq).1 = .error (.extractionError m) →
      strContains m "[GetNvrEncparam]" = true ∧ strContains m code = true) ∧
    (∀ env code freq m,
      (GetNvrFinRun env code freq).1 = .error (.emptyResponseError m) →
      strContains m "[GetNvrFin]" = true ∧ strContains m code = true) ∧
    (∀ env code freq m,
      (GetNvrFinRun env code freq).1 = .error (.tableCountError m) →
      strContains m "[GetNvrFin]" = true) ∧
    (∀ env code freq m,
      (GetNvrFinRun env code freq).1 = .error (.missingKeyColumnError m) →
      strContains m "[GetNvrFin]" = true) := by
  refine ⟨?_, ?_, ?_, ?_, ?_, ?_⟩
  · intro env code e h
    unfold mainRun
    simp only [h]
  · intro env code t e hY hQ
    unfold mainRun
    simp only [hY, hQ]
  · intro env code freq m h
    rcases finRunError env code freq _ h with ⟨s, hs⟩ | hs | hs | ⟨n, hs⟩ | hs | ⟨s, hs⟩
    · exact absurd hs (by simp)
    · obtain rfl := FinError.extractionError.inj hs
      exact ⟨extractionMsg_tag code, extractionMsg_code code⟩
    · exact absurd hs (by simp)
    · exact absurd hs (by simp)
    · exact absurd hs (by simp)
    · exact absurd hs (by simp)
  · intro env code freq m h
    rcases finRunError env code freq _ h with ⟨s, hs⟩ | hs | hs | ⟨n, hs⟩ | hs | ⟨s, hs⟩
    · exact absurd hs (by simp)
    · exact absurd hs (by simp)
    · obtain rfl := FinError.emptyResponseError.inj hs
      exact ⟨emptyMsg_tag code freq, emptyMsg_code code freq⟩
    · exact absurd hs (by simp)
    · exact absurd hs (by simp)
    · exact absurd hs (by simp)
  · intro env code freq m h
    rcases finRunError env code freq _ h with ⟨s, hs⟩ | hs | hs | ⟨n, hs⟩ | hs | ⟨s, hs⟩
    · exact absurd hs (by simp)
    · exact absurd hs (by simp)
    · exact absurd hs (by simp)
    · obtain rfl := FinError.tableCountError.inj hs
      exact countMsg_tag n
    · exact absurd hs (by simp)
    · exact absurd hs (by simp)
  · intro env code freq m h
    rcases finRunError env code freq _ h with ⟨s, hs⟩ | hs | hs | ⟨n, hs⟩ | hs | ⟨s, hs⟩
    · exact absurd hs (by simp)
    · exact absurd hs (by simp)
    · exact absurd hs (by simp)
    · exact absurd hs (by simp)
    · obtain rfl := FinError.missingKeyColumnError.inj hs
      exact keyMsg_tag
    · exact absurd hs (by simp)

/-- Witness: the table-count failure of the concrete environment propagates
unchanged to the top level of the run. -/
theorem error_propagation_diagnostics_witness :
    (mainRun envCnt "095660").1 = .error (.tableCountError (countMsg 0)) :=
  error_propagation_diagnostics.1 envCnt "095660"
    (.tableCountError (countMsg 0)) (by rfl)

/-- Counterexample to C5 as stated: the concrete run fails with the
table-count error, whose diagnostic does not include the entity code
095660. -/
theorem error_diagnostics_cex :
    (mainRun envCnt "095660").1 = .error (.tableCountError (countMsg 0)) ∧
    strContains (countMsg 0) "095660" = false :=
  ⟨by rfl, by rfl⟩
